import Mathlib

/-!
# Shallow embedding of the ss.lv web-scraper pipeline

This file embeds the extraction pipeline of `web_srcaper.py`:

* `find_single_page_urls` — link discovery on an index page (anchors with an
  `href`, absolute-URL building, `re.search("msg", ...)` filtering,
  first-seen deduplication);
* `get_msg_table_info` — field extraction on a detail page
  (`soup.find('table', id="page_main")`, `findAll('td', {"class": ...})`,
  and the `str(data).split('">', 1)[1].split("</", 1)[0]` text carving);
* `write_line` and the `main` per-listing loop (`for i in range(10)`),
  including the exceptions Python would raise (`IndexError` on
  `nondup_urls[i]` / `table_opt_values[i]` / `table_price[0]`,
  `AttributeError` on a missing table, fetch failures): a fallible step is
  modelled with `Option`, and the run keeps the lines written before a fault.

Markup text is modelled as `List Char`; a table cell carries its `class`
attribute and its serialized inner markup, and `render` is the `str(data)`
serialization BeautifulSoup produces for such a cell.
-/

/-- Python's `s.find(sep)`-style leftmost split: the part strictly before the
first occurrence of `sep` and the part strictly after it, or `none` when
`sep` does not occur (for nonempty `sep`).  `s.split(sep, 1)` returns
`[pre, post]` when this is `some (pre, post)` and `[s]` when it is `none`. -/
def findSplit (sep : List Char) : List Char → Option (List Char × List Char)
  | [] => none
  | c :: t =>
    if sep.isPrefixOf (c :: t) then some ([], (c :: t).drop sep.length)
    else
      match findSplit sep t with
      | none => none
      | some (pre, post) => some (c :: pre, post)

/-- A `td` cell of the `page_main` table: its `class` attribute value and its
serialized inner markup. -/
structure Cell where
  cls : List Char
  inner : List Char
deriving DecidableEq

/-- The `page_main` table: its `td` cells in document order. -/
structure Table where
  cells : List Cell
deriving DecidableEq

/-- A parsed detail page: `soup.find('table', id="page_main")` yields
`some` table or `none` (Python `None`). -/
structure DetailPage where
  page_main : Option Table
deriving DecidableEq

/-- The characters of `<td class="`, the serialized opening of a matched cell
up to and including the quote that opens the class attribute value. -/
def tdOpenChars : List Char := ['<', 't', 'd', ' ', 'c', 'l', 'a', 's', 's', '=', '"']

/-- The characters of `</td>`, the serialized closing tag of a cell. -/
def tdEndChars : List Char := ['<', '/', 't', 'd', '>']

/-- `str(data)` for a matched cell: `<td class="CLS">INNER</td>`. -/
def render (c : Cell) : List Char :=
  tdOpenChars ++ c.cls ++ '"' :: '>' :: (c.inner ++ tdEndChars)

/-- The carving `tostr.split('">', 1)[1].split("</", 1)[0]` from
`get_msg_table_info`: `none` is Python's `IndexError` when `'">'` does not
occur in the serialized cell; otherwise the text after the first `">` and
before the following first `</` (or all of it when `</` never occurs). -/
def carve (tostr : List Char) : Option (List Char) :=
  match findSplit ['"', '>'] tostr with
  | none => none
  | some (_, no_front) =>
    some
      (match findSplit ['<', '/'] no_front with
       | none => no_front
       | some (pre, _) => pre)

/-- The value `carve` produces on a rendered cell (proved below): the part of
`inner ++ "</td>"` strictly before its first `</`. -/
def carvedText (c : Cell) : List Char :=
  match findSplit ['<', '/'] (c.inner ++ tdEndChars) with
  | none => c.inner ++ tdEndChars
  | some (pre, _) => pre

/-- The `for data in table_data` loop of `get_msg_table_info`: carve each
matched cell in document order; a failed carve is the `IndexError` that
aborts the whole call. -/
def extractFields : List Cell → Option (List (List Char))
  | [] => some []
  | c :: rest =>
    Option.bind (carve (render c)) fun s =>
      Option.map (fun l => s :: l) (extractFields rest)

/-- The document-level body of `get_msg_table_info`: `table.findAll('td',
{"class": td_class})` on the `page_main` table, then the carving loop.
`none` is the `AttributeError` Python raises on `None.findAll` when the
table is absent. -/
def tableInfoOfDoc (soup : DetailPage) (td_class : List Char) : Option (List (List Char)) :=
  match soup.page_main with
  | none => none
  | some table => extractFields (table.cells.filter (fun c => decide (c.cls = td_class)))

/-- The network: fetching a detail-page URL yields a parsed document or a
fetch failure (`requests.get` raising). -/
def Env : Type := String → Option DetailPage

/-- `get_msg_table_info(msg_url, td_class)`: fetch the page, then extract the
matched cells' carved texts.  `none` is any exception escaping the call. -/
def get_msg_table_info (env : Env) (msg_url : String) (td_class : List Char) :
    Option (List (List Char)) :=
  match env msg_url with
  | none => none
  | some soup => tableInfoOfDoc soup td_class

/-- An index page, as `find_single_page_urls` consumes it:
`find_all('a', href=True)` yields the `href` values of the anchors that have
one, in document order (anchors without an `href` are already skipped). -/
structure IndexPage where
  anchors : List String
deriving DecidableEq

/-- `re.search(pat, s)` for a literal pattern: does `pat` occur as a
contiguous substring of `s`? -/
def subOccurs (pat : List Char) : List Char → Bool
  | [] => pat.isEmpty
  | c :: t => pat.isPrefixOf (c :: t) || subOccurs pat t

/-- The `url_list` built by the first loop of `find_single_page_urls`: each
href prefixed with the site origin, kept when `re.search("msg", one_link)`
matches. -/
def url_list (page : IndexPage) : List String :=
  (page.anchors.map (fun h => "https://ss.lv" ++ h)).filter
    (fun u => subOccurs "msg".data u.data)

/-- The second loop of `find_single_page_urls`: `if url not in valid_urls:
valid_urls.append(url)`, folded over the list with the accumulator
`valid_urls`. -/
def dedupGo : List String → List String → List String
  | acc, [] => acc
  | acc, u :: t => if u ∈ acc then dedupGo acc t else dedupGo (acc ++ [u]) t

/-- First-seen deduplication starting from an empty accumulator. -/
def dedupFirst (l : List String) : List String := dedupGo [] l

/-- `find_single_page_urls(bs_object)`: build the matched URL list, then
deduplicate it preserving first-seen order. -/
def find_single_page_urls (page : IndexPage) : List String :=
  dedupFirst (url_list page)

/-- `write_line(text, file_name)`: append `text` verbatim to the end of the
file, whose content is modelled as a string. -/
def write_line (text : String) (file_content : String) : String := file_content ++ text

/-- Apply `write_line` for each line in order, threading the file content. -/
def applyWrites (lines : List String) (file_content : String) : String :=
  lines.foldl (fun f t => write_line t f) file_content

/-- The header literal written once per listing by the `main` loop. -/
def headerStr : String := "This is 10 message report about Ogre flats for sale: \n"

/-- The paired line `table_opt_names[i] + "-->" + table_opt_values[i] + "\n"`,
with out-of-range positions read as the empty text (they are only used in
range). -/
def mkPair (names values : List (List Char)) (i : Nat) : String :=
  String.mk (names.getD i []) ++ "-->" ++ String.mk (values.getD i []) ++ "\n"

/-- The inner `for i in range(len(table_opt_names) - 1)` loop over an explicit
index list: each step reads `names[i]` and `values[i]`; a missing index is
Python's `IndexError`, which keeps the lines already written and stops with
a fault flag. -/
def pairedGo (names values : List (List Char)) : List Nat → List String × Bool
  | [] => ([], true)
  | i :: rest =>
    match names[i]?, values[i]? with
    | some n, some v =>
      let r := pairedGo names values rest
      ((String.mk n ++ "-->" ++ String.mk v ++ "\n") :: r.1, r.2)
    | _, _ => ([], false)

/-- The paired-lines loop as `main` runs it: indices `0 .. len(names) - 2`
(Python's `range(len(table_opt_names) - 1)`; for an empty `names` the range
is empty, matching `range(-1)`). -/
def pairedLines (names values : List (List Char)) : List String × Bool :=
  pairedGo names values (List.range (names.length - 1))

/-- One iteration of the `main` loop for a given listing URL: the three
`get_msg_table_info` calls (any exception aborts the iteration before any
write), then the header line, the URL line, the paired lines, and the price
line `"Price:--->" + table_price[0] + "\n"` (an empty price list is an
`IndexError` after the earlier lines are already written).  Returns the
lines written for this listing and whether the iteration finished without
an exception. -/
def listingStep (env : Env) (url : String) : List String × Bool :=
  match get_msg_table_info env url "ads_opt_name".data with
  | none => ([], false)
  | some table_opt_names =>
    match get_msg_table_info env url "ads_opt".data with
    | none => ([], false)
    | some table_opt_values =>
      match get_msg_table_info env url "ads_price".data with
      | none => ([], false)
      | some table_price =>
        if (pairedLines table_opt_names table_opt_values).2 then
          match table_price[0]? with
          | none =>
            (headerStr :: (url ++ "\n") :: (pairedLines table_opt_names table_opt_values).1,
              false)
          | some p =>
            (headerStr :: (url ++ "\n") :: (pairedLines table_opt_names table_opt_values).1
              ++ ["Price:--->" ++ String.mk p ++ "\n"], true)
        else
          (headerStr :: (url ++ "\n") :: (pairedLines table_opt_names table_opt_values).1,
            false)

/-- The `for i in range(10)` loop of `main` over an explicit index list:
`nondup_urls[i]` first (a missing index is an uncaught `IndexError`), then
the listing iteration; an exception anywhere stops the run, keeping the
lines already written. -/
def runGo (env : Env) (urls : List String) : List Nat → List String × Bool
  | [] => ([], true)
  | i :: rest =>
    match urls[i]? with
    | none => ([], false)
    | some url =>
      if (listingStep env url).2 then
        ((listingStep env url).1 ++ (runGo env urls rest).1, (runGo env urls rest).2)
      else listingStep env url

/-- The per-listing loop of `main`: exactly the indices `0 .. 9`. -/
def mainRun (env : Env) (urls : List String) : List String × Bool :=
  runGo env urls (List.range 10)

/-- `main` from link discovery on: discover the listing URLs on the index
page, then run the ten-iteration loop over them. -/
def fullMain (env : Env) (page : IndexPage) : List String × Bool :=
  mainRun env (find_single_page_urls page)

/-- The specification-side first-seen deduplication: keep each element's
first occurrence, removing its later duplicates.  Used to characterize the
accumulator loop of `find_single_page_urls`. -/
def firstSeenSpec : List String → List String
  | [] => []
  | a :: t => a :: firstSeenSpec (t.filter (fun x => decide (x ≠ a)))
termination_by l => l.length
decreasing_by
  simp only [List.length_cons]
  exact Nat.lt_succ_of_le (List.length_filter_le _ _)

/-- The specification-side reading of the claimed carving policy: the cell's
leading inline text, i.e. its inner text up to the first `<`. -/
def leadingInlineText (inner : List Char) : List Char :=
  inner.takeWhile (fun ch => decide (ch ≠ '<'))

/-- A name cell of the synthetic two-name/two-value/one-price detail page. -/
def nameCellA : Cell := ⟨"ads_opt_name".data, "N1".data⟩

/-- The second name cell of the synthetic detail page. -/
def nameCellB : Cell := ⟨"ads_opt_name".data, "N2".data⟩

/-- A value cell of the synthetic detail page. -/
def valueCellA : Cell := ⟨"ads_opt".data, "V1".data⟩

/-- The second value cell of the synthetic detail page. -/
def valueCellB : Cell := ⟨"ads_opt".data, "V2".data⟩

/-- The price cell of the synthetic detail page. -/
def priceCellA : Cell := ⟨"ads_price".data, "P1".data⟩

/-- The synthetic detail page with 2 name cells, 2 value cells, 1 price cell. -/
def doc221 : DetailPage := ⟨some ⟨[nameCellA, nameCellB, valueCellA, valueCellB, priceCellA]⟩⟩

/-- An environment serving the synthetic 2/2/1 detail page for every URL. -/
def env221 : Env := fun _ => some doc221

/-- A detail page whose table holds a single price cell and no name/value
cells. -/
def docPriceOnly : DetailPage := ⟨some ⟨[priceCellA]⟩⟩

/-- An environment serving the price-only detail page for every URL. -/
def envPriceOnly : Env := fun _ => some docPriceOnly

/-- A detail page whose `page_main` table is present but has no cells. -/
def docEmptyTable : DetailPage := ⟨some ⟨[]⟩⟩

/-- An environment serving the empty-table detail page for every URL. -/
def envEmptyTable : Env := fun _ => some docEmptyTable

/-- An environment on which every detail-page fetch fails. -/
def envFail : Env := fun _ => none

/-- Ten distinct listing URLs, enough for the full ten-iteration loop. -/
def urlsTen : List String :=
  ["u0", "u1", "u2", "u3", "u4", "u5", "u6", "u7", "u8", "u9"]

/-- An environment on which exactly the URL `bad` fails to fetch and every
other URL serves the price-only detail page. -/
def envBad : Env := fun u => if u = "bad" then none else some docPriceOnly

/-- Ten listing URLs whose first one is the failing `bad` URL. -/
def badUrls : List String :=
  ["bad", "g1", "g2", "g3", "g4", "g5", "g6", "g7", "g8", "g9"]

/-! ## Link-discovery lemmas -/

lemma dedupGo_eq (l : List String) :
    ∀ acc, dedupGo acc l = acc ++ firstSeenSpec (l.filter (fun x => decide (x ∉ acc))) := by
  induction l with
  | nil => intro acc; simp [dedupGo, firstSeenSpec]
  | cons u t ih =>
    intro acc
    by_cases hu : u ∈ acc
    · rw [dedupGo, if_pos hu, ih acc]
      have hfu : (fun x => decide (x ∉ acc)) u = false := by simp [hu]
      rw [List.filter_cons_of_neg (by simp [hu])]
    · rw [dedupGo, if_neg hu, ih (acc ++ [u])]
      rw [List.filter_cons_of_pos (by simp [hu])]
      rw [firstSeenSpec]
      rw [List.filter_filter]
      have hfun : (fun a => decide (a ≠ u) && decide (a ∉ acc)) =
          (fun x => decide (x ∉ acc ++ [u])) := by
        funext x
        simp [List.mem_append, not_or, Bool.and_comm]
      rw [hfun, List.append_assoc]
      rfl

lemma dedupFirst_eq_firstSeenSpec (l : List String) : dedupFirst l = firstSeenSpec l := by
  rw [dedupFirst, dedupGo_eq]
  simp

lemma mem_firstSeenSpec {x : String} : ∀ {l : List String}, x ∈ firstSeenSpec l ↔ x ∈ l := by
  intro l
  induction l using firstSeenSpec.induct with
  | case1 => simp [firstSeenSpec]
  | case2 a t ih =>
    rw [firstSeenSpec]
    simp only [List.mem_cons, ih, List.mem_filter, decide_eq_true_eq]
    constructor
    · rintro (rfl | ⟨hm, _⟩)
      · exact Or.inl rfl
      · exact Or.inr hm
    · rintro (rfl | hm)
      · exact Or.inl rfl
      · by_cases hxa : x = a
        · exact Or.inl hxa
        · exact Or.inr ⟨hm, hxa⟩

lemma nodup_firstSeenSpec : ∀ (l : List String), (firstSeenSpec l).Nodup := by
  intro l
  induction l using firstSeenSpec.induct with
  | case1 => simp [firstSeenSpec]
  | case2 a t ih =>
    rw [firstSeenSpec]
    refine List.nodup_cons.mpr ⟨?_, ih⟩
    intro hmem
    have := (mem_firstSeenSpec.mp hmem)
    have := (List.mem_filter.mp this).2
    simp at this

lemma firstSeenSpec_sublist : ∀ (l : List String), List.Sublist (firstSeenSpec l) l := by
  intro l
  induction l using firstSeenSpec.induct with
  | case1 => simp [firstSeenSpec]
  | case2 a t ih =>
    rw [firstSeenSpec]
    exact List.Sublist.cons₂ a (ih.trans (List.filter_sublist t))

lemma firstSeenSpec_of_nodup : ∀ {l : List String}, l.Nodup → firstSeenSpec l = l := by
  intro l
  induction l using firstSeenSpec.induct with
  | case1 => intro _; rw [firstSeenSpec]
  | case2 a t ih =>
    intro hnd
    rcases List.nodup_cons.mp hnd with ⟨ha, ht⟩
    have hft : t.filter (fun x => decide (x ≠ a)) = t := by
      apply List.filter_eq_self.mpr
      intro b hb
      simp only [decide_eq_true_eq]
      intro hba
      exact ha (hba ▸ hb)
    have h2 := ih (by rw [hft]; exact ht)
    rw [firstSeenSpec, h2, hft]

/-! ## Claim C6 and C10: link discovery -/

/-- C6: link discovery is idempotent and order-preserving.  On every parsed
index document the result of `find_single_page_urls` is exactly the
first-seen deduplication of the matched URL list: it has no duplicates
(each URL appears exactly once), it is a subsequence of the matched list
(order-preserving, each kept occurrence being the first one), the
deduplication pass applied again to the result is the identity, and each
URL's multiplicity in the result is one when it was matched at all. -/
theorem C6_discovery_idempotent_order (page : IndexPage) :
    find_single_page_urls page = firstSeenSpec (url_list page)
    ∧ (find_single_page_urls page).Nodup
    ∧ List.Sublist (find_single_page_urls page) (url_list page)
    ∧ dedupFirst (find_single_page_urls page) = find_single_page_urls page
    ∧ ∀ u, (find_single_page_urls page).count u =
        if u ∈ url_list page then 1 else 0 := by
  have hval : find_single_page_urls page = firstSeenSpec (url_list page) :=
    dedupFirst_eq_firstSeenSpec _
  have hnd : (find_single_page_urls page).Nodup := by
    rw [hval]; exact nodup_firstSeenSpec _
  refine ⟨hval, hnd, ?_, ?_, ?_⟩
  · rw [hval]; exact firstSeenSpec_sublist _
  · rw [dedupFirst_eq_firstSeenSpec, firstSeenSpec_of_nodup hnd]
  · intro u
    rw [List.count_eq_of_nodup hnd]
    have hmem : u ∈ find_single_page_urls page ↔ u ∈ url_list page := by
      rw [hval]; exact mem_firstSeenSpec
    by_cases hu : u ∈ url_list page
    · rw [if_pos (hmem.mpr hu), if_pos hu]
    · rw [if_neg (fun h => hu (hmem.mp h)), if_neg hu]

/-- C10: every URL returned by link discovery starts with the site origin
`https://ss.lv`, contains the substring `msg`, and the returned list has no
duplicate elements. -/
theorem C10_url_invariants (page : IndexPage) :
    (∀ u ∈ find_single_page_urls page,
        (∃ r, u = "https://ss.lv" ++ r) ∧ subOccurs "msg".data u.data = true)
    ∧ (find_single_page_urls page).Nodup := by
  have hval : find_single_page_urls page = firstSeenSpec (url_list page) :=
    dedupFirst_eq_firstSeenSpec _
  constructor
  · intro u hu
    have hu' : u ∈ url_list page := by
      rw [hval] at hu; exact mem_firstSeenSpec.mp hu
    rcases List.mem_filter.mp hu' with ⟨hmap, hsub⟩
    rcases List.mem_map.mp hmap with ⟨h, _, rfl⟩
    exact ⟨⟨h, rfl⟩, hsub⟩
  · rw [hval]; exact nodup_firstSeenSpec _

/-- Witness for C10 at a one-anchor index page. -/
theorem C10_url_invariants_witness :
    ((∃ r, "https://ss.lv/msg/a" = "https://ss.lv" ++ r)
      ∧ subOccurs "msg".data "https://ss.lv/msg/a".data = true)
    ∧ (find_single_page_urls ⟨["/msg/a"]⟩).Nodup :=
  ⟨(C10_url_invariants ⟨["/msg/a"]⟩).1 "https://ss.lv/msg/a" (by decide),
   (C10_url_invariants ⟨["/msg/a"]⟩).2⟩

/-! ## Carving lemmas -/

lemma findSplit_base (a b : Char) (s : List Char) :
    findSplit [a, b] (a :: b :: s) = some ([], s) := by
  rw [findSplit]
  simp [List.isPrefixOf]

lemma findSplit_skip_block (p2 : List Char) (a : Char) :
    ∀ (blk s : List Char), a ∉ blk →
      findSplit (a :: p2) (blk ++ s) =
        (findSplit (a :: p2) s).map (fun pr => (blk ++ pr.1, pr.2)) := by
  intro blk
  induction blk with
  | nil =>
    intro s _
    cases h : findSplit (a :: p2) s <;> simp [h]
  | cons c blk' ih =>
    intro s hmem
    have hac : ¬a = c := fun h => hmem (h ▸ List.mem_cons_self c blk')
    rw [List.cons_append, findSplit]
    have hpre : (a :: p2).isPrefixOf (c :: (blk' ++ s)) = false := by
      simp [List.isPrefixOf, hac]
    rw [if_neg (by simp [hpre])]
    rw [ih s (fun h => hmem (List.mem_cons_of_mem c h))]
    cases h : findSplit (a :: p2) s <;> simp

lemma findSplit_quote_cons (X : List Char) (hhead : X.head? ≠ some '>') :
    findSplit ['"', '>'] ('"' :: X) =
      (findSplit ['"', '>'] X).map (fun pr => ('"' :: pr.1, pr.2)) := by
  rw [findSplit]
  have hpre : (['"', '>'] : List Char).isPrefixOf ('"' :: X) = false := by
    cases X with
    | nil => simp [List.isPrefixOf]
    | cons c t =>
      have hc : ¬c = '>' := fun h => hhead (by simp [h])
      have hc' : ¬('>' = c) := fun h => hc h.symm
      simp [List.isPrefixOf, hc']
  rw [if_neg (by simp [hpre])]
  cases h : findSplit ['"', '>'] X <;> simp

lemma findSplit_open (cls rest : List Char) (h1 : '"' ∉ cls) (h2 : '>' ∉ cls) :
    findSplit ['"', '>'] (tdOpenChars ++ cls ++ '"' :: '>' :: rest) =
      some (tdOpenChars ++ cls, rest) := by
  have hshape : tdOpenChars ++ cls ++ '"' :: '>' :: rest =
      ['<', 't', 'd', ' ', 'c', 'l', 'a', 's', 's', '='] ++
        ('"' :: (cls ++ '"' :: '>' :: rest)) := by
    simp [tdOpenChars]
  rw [hshape]
  rw [findSplit_skip_block _ _ _ _ (by decide)]
  have hhead : (cls ++ '"' :: '>' :: rest).head? ≠ some '>' := by
    cases cls with
    | nil => simp
    | cons c t =>
      have hc : ¬c = '>' := fun h => h2 (h ▸ List.mem_cons_self c t)
      simp [hc]
  rw [findSplit_quote_cons _ hhead]
  rw [findSplit_skip_block _ _ cls _ h1]
  rw [findSplit_base]
  simp [tdOpenChars]

lemma carve_render (c : Cell) (h1 : '"' ∉ c.cls) (h2 : '>' ∉ c.cls) :
    carve (render c) = some (carvedText c) := by
  rw [carve, render, findSplit_open _ _ h1 h2, carvedText]

lemma findSplit_pair (a b : Char) (hab : a ≠ b) :
    ∀ (pre suf : List Char), subOccurs [a, b] pre = false →
      findSplit [a, b] (pre ++ a :: b :: suf) = some (pre, suf) := by
  intro pre
  induction pre with
  | nil => intro suf _; exact findSplit_base a b suf
  | cons c pre' ih =>
    intro suf hocc
    rw [subOccurs, Bool.or_eq_false_iff] at hocc
    rw [List.cons_append, findSplit]
    have hpre : ([a, b] : List Char).isPrefixOf (c :: (pre' ++ a :: b :: suf)) = false := by
      by_cases hca : a = c
      · subst hca
        have h1 : ([b] : List Char).isPrefixOf pre' = false := by
          have := hocc.1
          simpa [List.isPrefixOf] using this
        cases pre' with
        | nil =>
          have hba : ¬b = a := fun h => hab h.symm
          simp [List.isPrefixOf, hba]
        | cons d pre'' =>
          have hbd : ¬b = d := by
            intro h
            rw [h] at h1
            simp [List.isPrefixOf] at h1
          simp [List.isPrefixOf, hbd]
      · simp [List.isPrefixOf, hca]
    rw [if_neg (by simp [hpre])]
    rw [ih suf hocc.2]

lemma subOccurs_eq_false_of_head_notMem (a : Char) (p : List Char) :
    ∀ s, a ∉ s → subOccurs (a :: p) s = false := by
  intro s
  induction s with
  | nil => intro _; rfl
  | cons c t ih =>
    intro hmem
    have hac : ¬a = c := fun h => hmem (h ▸ List.mem_cons_self c t)
    rw [subOccurs, ih (fun h => hmem (List.mem_cons_of_mem c h))]
    simp [List.isPrefixOf, hac]

lemma findSplit_close_of_no_lt (inner rest : List Char) (h : '<' ∉ inner) :
    findSplit ['<', '/'] (inner ++ '<' :: '/' :: rest) = some (inner, rest) :=
  findSplit_pair '<' '/' (by decide) inner rest
    (subOccurs_eq_false_of_head_notMem '<' ['/'] inner h)

lemma carvedText_of_no_lt (c : Cell) (h : '<' ∉ c.inner) : carvedText c = c.inner := by
  have hshape : c.inner ++ tdEndChars = c.inner ++ '<' :: '/' :: ['t', 'd', '>'] := rfl
  rw [carvedText, hshape, findSplit_close_of_no_lt _ _ h]

lemma carvedText_of_close_marker (c : Cell) (pre suf : List Char)
    (hsplit : c.inner = pre ++ '<' :: '/' :: suf)
    (hpre : subOccurs ['<', '/'] pre = false) :
    carvedText c = pre := by
  rw [carvedText, hsplit]
  have hshape : (pre ++ '<' :: '/' :: suf) ++ tdEndChars =
      pre ++ '<' :: '/' :: (suf ++ tdEndChars) := by
    simp
  rw [hshape, findSplit_pair '<' '/' (by decide) pre _ hpre]

lemma extractFields_of_clean (cells : List Cell)
    (h : ∀ c ∈ cells, '"' ∉ c.cls ∧ '>' ∉ c.cls) :
    extractFields cells = some (cells.map carvedText) := by
  induction cells with
  | nil => rfl
  | cons c rest ih =>
    rcases h c (List.mem_cons_self c rest) with ⟨h1, h2⟩
    rw [extractFields, carve_render c h1 h2,
      ih (fun d hd => h d (List.mem_cons_of_mem c hd))]
    simp

/-! ## Claims C5, C7, C8: field extraction -/

/-- C5 as stated is refuted by a cell with nested markup: the code keeps the
text up to the first `</` (the first closing-tag marker), not up to the
first `<`.  On the cell `<td class="x">abc<b>q</b></td>` the carving
returns `abc<b>q`, while the claimed policy (leading inline text up to the
next opening angle bracket) prescribes `abc`. -/
theorem C5_counterexample :
    carve (render ⟨['x'], "abc<b>q</b>".data⟩) = some "abc<b>q".data
    ∧ leadingInlineText "abc<b>q</b>".data = "abc".data
    ∧ "abc<b>q".data ≠ "abc".data := by
  refine ⟨by decide, by decide, by decide⟩

/-- C5 amended: for every matched cell (with a quote-free, bracket-free class
label, as serialized cells have), extraction keeps the text of
`inner ++ "</td>"` strictly before its first closing-tag marker `</`: when
the cell's inner markup contains no `<` at all, the entire inner text is
kept; and when the inner markup is `pre ++ "</" ++ suf` with `pre` free of
`<`, exactly `pre` is kept — so text up to the first `</` boundary, which
retains any nested opening tags and their leading text. -/
theorem C5_amended_carving (c : Cell) (h1 : '"' ∉ c.cls) (h2 : '>' ∉ c.cls) :
    carve (render c) = some (carvedText c)
    ∧ ('<' ∉ c.inner → carvedText c = c.inner)
    ∧ ∀ pre suf, c.inner = pre ++ '<' :: '/' :: suf →
        subOccurs ['<', '/'] pre = false → carvedText c = pre :=
  ⟨carve_render c h1 h2,
    carvedText_of_no_lt c,
    fun pre suf hs hp => carvedText_of_close_marker c pre suf hs hp⟩

/-- Witness for C5 amended, on a plain cell and on a cell with nested markup. -/
theorem C5_amended_carving_witness :
    (carve (render ⟨['x'], "hello".data⟩) = some (carvedText ⟨['x'], "hello".data⟩)
      ∧ carvedText ⟨['x'], "hello".data⟩ = "hello".data)
    ∧ carvedText ⟨['x'], "abc<b>q</b>".data⟩ = "abc<b>q".data :=
  ⟨⟨(C5_amended_carving ⟨['x'], "hello".data⟩ (by decide) (by decide)).1,
    (C5_amended_carving ⟨['x'], "hello".data⟩ (by decide) (by decide)).2.1 (by decide)⟩,
   (C5_amended_carving ⟨['x'], "abc<b>q</b>".data⟩ (by decide) (by decide)).2.2
     "abc<b>q".data "b>".data (by decide) (by decide)⟩

/-- C7 as stated is refuted when the target table is absent: on a document
whose `page_main` lookup yields `None`, the extraction call raises
(`None.findAll`), modelled as `none` — it does not return the empty
sequence. -/
theorem C7_counterexample :
    tableInfoOfDoc ⟨none⟩ "ads_opt_name".data = none
    ∧ tableInfoOfDoc ⟨none⟩ "ads_opt_name".data ≠ some [] :=
  ⟨rfl, by decide⟩

/-- C7 amended: extraction returns the empty sequence, not an error, when the
requested cell class is absent from a present target table; when the target
table itself is absent the call fails (an `AttributeError`) instead of
returning an empty sequence. -/
theorem C7_amended_absent (doc : DetailPage) (t : Table) (lbl : List Char) :
    (doc.page_main = some t →
      t.cells.filter (fun c => decide (c.cls = lbl)) = [] →
      tableInfoOfDoc doc lbl = some [])
    ∧ (doc.page_main = none → tableInfoOfDoc doc lbl = none) := by
  constructor
  · intro ht hf
    rw [tableInfoOfDoc, ht]
    show extractFields (t.cells.filter (fun c => decide (c.cls = lbl))) = some []
    rw [hf]
    rfl
  · intro ht
    rw [tableInfoOfDoc, ht]

/-- Witness for C7 amended: a table with one non-matching cell yields the
empty sequence; an absent table yields the error. -/
theorem C7_amended_absent_witness :
    tableInfoOfDoc ⟨some ⟨[⟨"other".data, "x".data⟩]⟩⟩ "ads_opt_name".data = some []
    ∧ tableInfoOfDoc ⟨none⟩ "ads_opt".data = none :=
  ⟨(C7_amended_absent ⟨some ⟨[⟨"other".data, "x".data⟩]⟩⟩ ⟨[⟨"other".data, "x".data⟩]⟩
      "ads_opt_name".data).1 rfl (by decide),
   (C7_amended_absent ⟨none⟩ ⟨[]⟩ "ads_opt".data).2 rfl⟩

/-- C8: on a document whose target table is present, extraction for a label
(quote-free and bracket-free, as the real field classes are) returns
exactly one carved string per matching cell, in document order: the result
is the image of the matched-cell list under the carving, so its length is
exactly the number of matching cells. -/
theorem C8_extraction_per_cell (doc : DetailPage) (t : Table) (lbl : List Char)
    (hdoc : doc.page_main = some t) (h1 : '"' ∉ lbl) (h2 : '>' ∉ lbl) :
    tableInfoOfDoc doc lbl =
      some ((t.cells.filter (fun c => decide (c.cls = lbl))).map carvedText)
    ∧ ∃ l, tableInfoOfDoc doc lbl = some l
        ∧ l.length = (t.cells.filter (fun c => decide (c.cls = lbl))).length := by
  have hmap : tableInfoOfDoc doc lbl =
      some ((t.cells.filter (fun c => decide (c.cls = lbl))).map carvedText) := by
    rw [tableInfoOfDoc, hdoc]
    apply extractFields_of_clean
    intro c hc
    have hcls : c.cls = lbl := by simpa using (List.mem_filter.mp hc).2
    exact ⟨hcls ▸ h1, hcls ▸ h2⟩
  exact ⟨hmap, _, hmap, by simp⟩

/-- Witness for C8 on a table with two matching cells among three. -/
theorem C8_extraction_per_cell_witness :
    tableInfoOfDoc ⟨some ⟨[⟨"ads_opt".data, "V1".data⟩, ⟨"other".data, "x".data⟩,
        ⟨"ads_opt".data, "V2".data⟩]⟩⟩ "ads_opt".data =
      some ["V1".data, "V2".data] := by
  have h := C8_extraction_per_cell
    ⟨some ⟨[⟨"ads_opt".data, "V1".data⟩, ⟨"other".data, "x".data⟩,
      ⟨"ads_opt".data, "V2".data⟩]⟩⟩
    ⟨[⟨"ads_opt".data, "V1".data⟩, ⟨"other".data, "x".data⟩, ⟨"ads_opt".data, "V2".data⟩]⟩
    "ads_opt".data rfl (by decide) (by decide)
  rw [h.1]
  decide

/-! ## Orchestrator lemmas -/

lemma pairedGo_cons_ok (names values : List (List Char)) (i : Nat) (t : List Nat)
    (hn : i < names.length) (hv : i < values.length) :
    pairedGo names values (i :: t) =
      (mkPair names values i :: (pairedGo names values t).1,
        (pairedGo names values t).2) := by
  rw [pairedGo, List.getElem?_eq_getElem hn, List.getElem?_eq_getElem hv]
  simp [mkPair, List.getD_eq_getElem?_getD, List.getElem?_eq_getElem, hn, hv]

lemma pairedGo_cons_fail (names values : List (List Char)) (i : Nat) (t : List Nat)
    (hv : values.length ≤ i) :
    pairedGo names values (i :: t) = ([], false) := by
  rw [pairedGo, List.getElem?_eq_none hv]
  cases h : names[i]? <;> simp

lemma pairedGo_append_ok (names values : List (List Char)) (xs ys : List Nat)
    (h : ∀ i ∈ xs, i < names.length ∧ i < values.length) :
    pairedGo names values (xs ++ ys) =
      (xs.map (mkPair names values) ++ (pairedGo names values ys).1,
        (pairedGo names values ys).2) := by
  induction xs with
  | nil => simp
  | cons i t ih =>
    rcases h i (List.mem_cons_self i t) with ⟨hn, hv⟩
    rw [List.cons_append, pairedGo_cons_ok names values i _ hn hv,
      ih (fun j hj => h j (List.mem_cons_of_mem i hj))]
    simp

lemma pairedGo_all_ok (names values : List (List Char)) (xs : List Nat)
    (h : ∀ i ∈ xs, i < names.length ∧ i < values.length) :
    pairedGo names values xs = (xs.map (mkPair names values), true) := by
  have := pairedGo_append_ok names values xs [] h
  simpa [pairedGo] using this

lemma runGo_cons_ok (env : Env) (urls : List String) (i : Nat) (rest : List Nat)
    (url : String) (hurl : urls[i]? = some url) (hok : (listingStep env url).2 = true) :
    runGo env urls (i :: rest) =
      ((listingStep env url).1 ++ (runGo env urls rest).1, (runGo env urls rest).2) := by
  rw [runGo, hurl]
  simp [hok]

lemma runGo_cons_fail (env : Env) (urls : List String) (i : Nat) (rest : List Nat)
    (url : String) (hurl : urls[i]? = some url) (hfail : (listingStep env url).2 = false) :
    runGo env urls (i :: rest) = ((listingStep env url).1, false) := by
  rw [runGo, hurl]
  simp [hfail]
  rw [← hfail]

lemma runGo_cons_missing (env : Env) (urls : List String) (i : Nat) (rest : List Nat)
    (hurl : urls[i]? = none) :
    runGo env urls (i :: rest) = ([], false) := by
  rw [runGo, hurl]

lemma runGo_flag_false (env : Env) (urls : List String) :
    ∀ (idxs : List Nat), (∃ i ∈ idxs, urls[i]? = none) →
      (runGo env urls idxs).2 = false := by
  intro idxs
  induction idxs with
  | nil => rintro ⟨i, hi, _⟩; exact absurd hi (List.not_mem_nil i)
  | cons j rest ih =>
    rintro ⟨i, hi, hnone⟩
    cases hj : urls[j]? with
    | none => rw [runGo_cons_missing env urls j rest hj]
    | some url =>
      have hir : i ∈ rest := by
        rcases List.mem_cons.mp hi with rfl | h
        · exact absurd hj (by rw [hnone]; simp)
        · exact h
      cases hok : (listingStep env url).2 with
      | true =>
        rw [runGo_cons_ok env urls j rest url hj hok]
        exact ih ⟨i, hir, hnone⟩
      | false =>
        rw [runGo_cons_fail env urls j rest url hj hok]

lemma runGo_flag_true (env : Env) (urls : List String) :
    ∀ (idxs : List Nat),
      (∀ i ∈ idxs, ∃ url, urls[i]? = some url ∧ (listingStep env url).2 = true) →
      (runGo env urls idxs).2 = true := by
  intro idxs
  induction idxs with
  | nil => intro _; rfl
  | cons j rest ih =>
    intro h
    rcases h j (List.mem_cons_self j rest) with ⟨url, hurl, hok⟩
    rw [runGo_cons_ok env urls j rest url hurl hok]
    exact ih (fun i hi => h i (List.mem_cons_of_mem j hi))

/-! ## Claims C1, C2, C3, C4, C9: the per-listing loop -/

/-- C1 as stated is refuted when discovery yields fewer than ten URLs: on an
index page with no matching anchors the loop still attempts index 0 of an
empty URL list and the run faults (`IndexError` on `nondup_urls[i]`)
instead of completing normally. -/
theorem C1_counterexample :
    (find_single_page_urls ⟨[]⟩).length = 0
    ∧ fullMain envFail ⟨[]⟩ = ([], false) := by
  constructor
  · decide
  · decide

/-- C1 amended: the loop always attempts exactly the indices 0..9; a run with
fewer than ten discovered URLs faults with an out-of-bounds index error
instead of stopping early, and a run completes normally exactly when at
least ten URLs were discovered and each of the first ten listing
iterations finishes without an exception. -/
theorem C1_amended_ten_iterations (env : Env) (urls : List String) :
    (urls.length < 10 → (mainRun env urls).2 = false)
    ∧ (10 ≤ urls.length →
        (∀ url ∈ urls.take 10, (listingStep env url).2 = true) →
        (mainRun env urls).2 = true) := by
  constructor
  · intro hlt
    apply runGo_flag_false
    exact ⟨urls.length, List.mem_range.mpr hlt, List.getElem?_eq_none (Nat.le_refl _)⟩
  · intro hge hok
    apply runGo_flag_true
    intro i hi
    have hi10 : i < 10 := List.mem_range.mp hi
    have hilen : i < urls.length := Nat.lt_of_lt_of_le hi10 hge
    refine ⟨urls[i], List.getElem?_eq_getElem hilen, ?_⟩
    apply hok
    have htake : i < (urls.take 10).length := by
      simp [List.length_take, hi10, hilen]
    have := List.getElem_take urls (h := htake)
    rw [← this]
    exact List.getElem_mem htake

/-- Witness for C1 amended: a one-URL run faults; a ten-URL run over an
environment serving a price cell for every listing completes. -/
theorem C1_amended_ten_iterations_witness :
    (mainRun envFail ["u"]).2 = false ∧ (mainRun envPriceOnly urlsTen).2 = true :=
  ⟨(C1_amended_ten_iterations envFail ["u"]).1 (by decide),
   (C1_amended_ten_iterations envPriceOnly urlsTen).2 (by decide) (by decide)⟩

/-- C2 as stated is refuted: a fetch failure on the first listing aborts the
whole ten-URL run with nothing written, even though every later listing
would have succeeded — the orchestrator does not catch the fault and does
not advance to the next candidate URL. -/
theorem C2_counterexample :
    mainRun envBad badUrls = ([], false)
    ∧ (listingStep envBad "g1").2 = true := by
  constructor
  · decide
  · decide

/-- C2 amended: a per-listing fetch or parse fault is not caught: when the
iteration for the listing at index `i` fails, the run stops with exactly
that iteration's lines, and the remaining candidate URLs are never
processed. -/
theorem C2_amended_fault_aborts (env : Env) (urls : List String) (i : Nat)
    (rest : List Nat) (url : String) (hurl : urls[i]? = some url)
    (hfail : (listingStep env url).2 = false) :
    runGo env urls (i :: rest) = ((listingStep env url).1, false) :=
  runGo_cons_fail env urls i rest url hurl hfail

/-- Witness for C2 amended on the failing first listing of `badUrls`. -/
theorem C2_amended_fault_aborts_witness :
    runGo envBad badUrls (0 :: [1, 2]) = ([], false) := by
  have h := C2_amended_fault_aborts envBad badUrls 0 [1, 2] "bad" (by decide) (by decide)
  rw [h]
  decide

/-- C3 as stated is refuted at name/value sequences of length 2 and 2: the
paired-lines loop runs `range(len(names) - 1)` and writes exactly 1 paired
line, not `min 2 2 = 2`. -/
theorem C3_counterexample :
    pairedLines [['a'], ['b']] [['c'], ['d']] = (["a-->c\n"], true)
    ∧ ([['a'], ['b']] : List (List Char)).length = 2
    ∧ ([['c'], ['d']] : List (List Char)).length = 2
    ∧ (1 : Nat) ≠ min 2 2 := by
  refine ⟨by decide, by decide, by decide, by decide⟩

/-- C3 amended: the paired-lines loop attempts exactly `m - 1` iterations for
`m` extracted names.  When the value sequence has at least `m - 1`
entries it writes exactly the `m - 1` paired lines in order (silently
dropping the last name and any further values) and raises no error; when
the value sequence is shorter than `m - 1` it faults with an index error
after writing exactly one paired line per value. -/
theorem C3_amended_pairing (names values : List (List Char)) :
    (names.length - 1 ≤ values.length →
      pairedLines names values =
        ((List.range (names.length - 1)).map (mkPair names values), true))
    ∧ (values.length < names.length - 1 →
      (pairedLines names values).2 = false
      ∧ (pairedLines names values).1.length = values.length) := by
  constructor
  · intro hle
    apply pairedGo_all_ok
    intro i hi
    have hi' : i < names.length - 1 := List.mem_range.mp hi
    exact ⟨Nat.lt_of_lt_of_le hi' (Nat.sub_le _ _), Nat.lt_of_lt_of_le hi' hle⟩
  · intro hlt
    have hsplit : names.length - 1 = values.length + (names.length - 1 - values.length) :=
      (Nat.add_sub_cancel' (Nat.le_of_lt hlt)).symm
    have hpos : 0 < names.length - 1 - values.length := Nat.sub_pos_of_lt hlt
    rcases Nat.exists_eq_succ_of_ne_zero (Nat.pos_iff_ne_zero.mp hpos) with ⟨k, hk⟩
    have hrange : List.range (names.length - 1) =
        List.range values.length ++
          (List.range (names.length - 1 - values.length)).map (values.length + ·) := by
      rw [← List.range_add, ← hsplit]
    have hx : ∀ i ∈ List.range values.length, i < names.length ∧ i < values.length := by
      intro i hi
      have hi' : i < values.length := List.mem_range.mp hi
      exact ⟨Nat.lt_of_lt_of_le hi' (Nat.le_of_lt (Nat.lt_of_lt_of_le hlt (Nat.sub_le _ _))),
        hi'⟩
    rw [pairedLines, hrange, pairedGo_append_ok names values _ _ hx, hk]
    rw [List.range_succ_eq_map]
    simp only [List.map_cons, List.cons_append]
    rw [pairedGo_cons_fail names values _ _ (by simp)]
    simp

/-- Witness for C3 amended: at `m = 3, n = 2` the loop writes two paired
lines and finishes; at `m = 4, n = 1` it faults after one paired line. -/
theorem C3_amended_pairing_witness :
    pairedLines [['a'], ['b'], ['c']] [['x'], ['y']] =
      ((List.range 2).map (mkPair [['a'], ['b'], ['c']] [['x'], ['y']]), true)
    ∧ (pairedLines [['a'], ['b'], ['c'], ['d']] [['x']]).2 = false
    ∧ (pairedLines [['a'], ['b'], ['c'], ['d']] [['x']]).1.length = 1 :=
  ⟨(C3_amended_pairing [['a'], ['b'], ['c']] [['x'], ['y']]).1 (by decide),
   ((C3_amended_pairing [['a'], ['b'], ['c'], ['d']] [['x']]).2 (by decide)).1,
   ((C3_amended_pairing [['a'], ['b'], ['c'], ['d']] [['x']]).2 (by decide)).2⟩

/-- C4 as stated is refuted on the synthetic 2-name/2-value/1-price detail
page: the iteration appends 1 header line, 1 URL line, only 1 paired line
(the loop drops the last name), and 1 price line — 4 lines, not the
claimed 1 + 1 + 2 + 1 = 5. -/
theorem C4_counterexample :
    tableInfoOfDoc doc221 "ads_opt_name".data = some ["N1".data, "N2".data]
    ∧ tableInfoOfDoc doc221 "ads_opt".data = some ["V1".data, "V2".data]
    ∧ tableInfoOfDoc doc221 "ads_price".data = some ["P1".data]
    ∧ listingStep env221 "u" = ([headerStr, "u\n", "N1-->V1\n", "Price:--->P1\n"], true)
    ∧ (4 : Nat) ≠ 1 + 1 + 2 + 1 := by
  refine ⟨by decide, by decide, by decide, by decide, by decide⟩

/-- C4 amended: on the synthetic 2-name/2-value/1-price detail page one
iteration appends exactly 1 header line, 1 URL line, 1 paired line and 1
price line to the report file, and every byte present in the file before
the iteration is left unchanged as a prefix (append, not overwrite). -/
theorem C4_amended_round_trip :
    (∀ prior : String,
      applyWrites (listingStep env221 "u").1 prior =
        prior ++ headerStr ++ "u\n" ++ "N1-->V1\n" ++ "Price:--->P1\n")
    ∧ listingStep env221 "u" =
        ([headerStr, "u\n", "N1-->V1\n", "Price:--->P1\n"], true) := by
  constructor
  · intro prior
    have hstep : listingStep env221 "u" =
        ([headerStr, "u\n", "N1-->V1\n", "Price:--->P1\n"], true) := by decide
    rw [hstep]
    rfl
  · decide

/-- C9 as stated is refuted when all three extractions yield zero fields: on
a detail page whose table has no cells, the header and URL lines are
written but `table_price[0]` faults, so no price line is written and the
run aborts instead of advancing to the next listing. -/
theorem C9_counterexample :
    tableInfoOfDoc docEmptyTable "ads_opt_name".data = some []
    ∧ tableInfoOfDoc docEmptyTable "ads_price".data = some []
    ∧ listingStep envEmptyTable "u" = ([headerStr, "u\n"], false)
    ∧ runGo envEmptyTable ["u", "u"] [0, 1] = ([headerStr, "u\n"], false) := by
  refine ⟨by decide, by decide, by decide, by decide⟩

/-- C9 amended: after the three extractions succeed, the header and URL
lines are written unconditionally; with zero name fields no paired line is
written, and provided the price extraction yielded at least one cell, the
price line is written and the loop advances unconditionally to the next
index.  (With zero price cells the price-line write faults instead.) -/
theorem C9_amended_advance (env : Env) (url : String) (vs : List (List Char))
    (p : List Char) (ps : List (List Char))
    (h1 : get_msg_table_info env url "ads_opt_name".data = some [])
    (h2 : get_msg_table_info env url "ads_opt".data = some vs)
    (h3 : get_msg_table_info env url "ads_price".data = some (p :: ps)) :
    listingStep env url =
      ([headerStr, url ++ "\n", "Price:--->" ++ String.mk p ++ "\n"], true)
    ∧ ∀ (urls : List String) (i : Nat) (rest : List Nat), urls[i]? = some url →
        runGo env urls (i :: rest) =
          ([headerStr, url ++ "\n", "Price:--->" ++ String.mk p ++ "\n"]
              ++ (runGo env urls rest).1,
            (runGo env urls rest).2) := by
  have hstep : listingStep env url =
      ([headerStr, url ++ "\n", "Price:--->" ++ String.mk p ++ "\n"], true) := by
    rw [listingStep, h1, h2, h3]
    simp [pairedLines, pairedGo]
  refine ⟨hstep, ?_⟩
  intro urls i rest hurl
  rw [runGo_cons_ok env urls i rest url hurl (by rw [hstep])]
  rw [hstep]

/-- Witness for C9 amended on the price-only detail page. -/
theorem C9_amended_advance_witness :
    listingStep envPriceOnly "u" =
      ([headerStr, "u" ++ "\n", "Price:--->" ++ String.mk "P1".data ++ "\n"], true)
    ∧ runGo envPriceOnly ["u"] (0 :: []) =
        ([headerStr, "u" ++ "\n", "Price:--->" ++ String.mk "P1".data ++ "\n"]
            ++ (runGo envPriceOnly ["u"] []).1,
          (runGo envPriceOnly ["u"] []).2) := by
  have h := C9_amended_advance envPriceOnly "u" [] "P1".data []
    (by decide) (by decide) (by decide)
  exact ⟨h.1, h.2 ["u"] 0 [] (by decide)⟩
